import Mathlib

/-!
Verification of the run-segmentation and type-inference engine of the
`orphist` analyzer (`src/command/analyze.rs`), shallowly embedded in Lean.

A 4-byte word is modelled as a tuple of its bytes in stream order.
Machine integers are modelled as `Nat`/`Int`: every value produced by the
analyzer fits well inside `i64`/`u64` ranges, which is noted where it
matters.  The `f32` decoding is only ever consulted for NaN-ness, a pure
property of the bit pattern, so floats are modelled by their bit patterns.
-/

namespace Orphist

/-- Byte order, from the `Endian` enum of `analyze.rs`. -/
inductive Endian
| big
| little
deriving DecidableEq, Repr

/-- A 4-byte word in stream order: `(b0, b1, b2, b3)` with `b0` read first.
Each component is a byte value (below 256 for words produced by `wordsOf`). -/
abbrev Word := Nat × Nat × Nat × Nat

/-- The all-zero word `[0, 0, 0, 0]` the segmenter compares against. -/
def zeroWord : Word := (0, 0, 0, 0)

/-- The `u32` bit pattern of a word under the given endianness:
`u32::from_le_bytes` / `u32::from_be_bytes` of `analyze.rs`. -/
def wordBits : Endian → Word → Nat
| Endian.little, (b0, b1, b2, b3) => b0 + 256 * b1 + 65536 * b2 + 16777216 * b3
| Endian.big, (b0, b1, b2, b3) => b3 + 256 * b2 + 65536 * b1 + 16777216 * b0

/-- Signed decoding: `i32::from_{le,be}_bytes` widened to `i64`
(two's complement reading of the 32 bits, exact in `Int`). -/
def decodeSigned (e : Endian) (w : Word) : Int :=
  let u : Nat := wordBits e w
  if u < 2 ^ 31 then (u : Int) else (u : Int) - 2 ^ 32

/-- Unsigned decoding: `u32::from_{le,be}_bytes` widened to `i64`. -/
def decodeUnsigned (e : Endian) (w : Word) : Int :=
  (wordBits e w : Int)

/-- NaN test on a single-precision bit pattern (what `f32::is_nan` checks):
exponent bits all set and a non-zero mantissa. -/
def isNanBits (n : Nat) : Bool :=
  decide ((n / 2 ^ 23) % 2 ^ 8 = 255) && decide (¬ n % 2 ^ 23 = 0)

/-- A UTF-8 continuation byte (`0x80..=0xBF`). -/
def isCont (b : Nat) : Bool := decide (128 ≤ b) && decide (b ≤ 191)

/-- UTF-8 validity of a byte sequence, as checked by Rust's
`String::from_utf8` (RFC 3629: no surrogates, no overlong forms,
maximum code point `U+10FFFF`). -/
def validUtf8 : List Nat → Bool
| [] => true
| b :: rest =>
  if b ≤ 127 then validUtf8 rest
  else if 194 ≤ b ∧ b ≤ 223 then
    match rest with
    | b1 :: rest2 => isCont b1 && validUtf8 rest2
    | [] => false
  else if b = 224 then
    match rest with
    | b1 :: b2 :: rest2 =>
      decide (160 ≤ b1) && decide (b1 ≤ 191) && isCont b2 && validUtf8 rest2
    | _ => false
  else if (225 ≤ b ∧ b ≤ 236) ∨ (238 ≤ b ∧ b ≤ 239) then
    match rest with
    | b1 :: b2 :: rest2 => isCont b1 && isCont b2 && validUtf8 rest2
    | _ => false
  else if b = 237 then
    match rest with
    | b1 :: b2 :: rest2 =>
      decide (128 ≤ b1) && decide (b1 ≤ 159) && isCont b2 && validUtf8 rest2
    | _ => false
  else if b = 240 then
    match rest with
    | b1 :: b2 :: b3 :: rest2 =>
      decide (144 ≤ b1) && decide (b1 ≤ 191) && isCont b2 && isCont b3 &&
        validUtf8 rest2
    | _ => false
  else if 241 ≤ b ∧ b ≤ 243 then
    match rest with
    | b1 :: b2 :: b3 :: rest2 =>
      isCont b1 && isCont b2 && isCont b3 && validUtf8 rest2
    | _ => false
  else if b = 244 then
    match rest with
    | b1 :: b2 :: b3 :: rest2 =>
      decide (128 ≤ b1) && decide (b1 ≤ 143) && isCont b2 && isCont b3 &&
        validUtf8 rest2
    | _ => false
  else false
termination_by l => l.length
decreasing_by all_goals (simp_all [List.length]; try omega)

/-- The `AssumedType` enum of `analyze.rs`. -/
inductive AssumedType
| bool
| i8
| i16
| i32
| u8
| u16
| u32
| zero
deriving DecidableEq, Repr

/-- The type-selection `if` chain at the end of `infer` (lines 170-190),
as written in the source: note the `u8`/`u16` guards also test
`min >= u8::MIN` / `min >= u16::MIN`, i.e. `0 ≤ mn`. -/
def selectType (mn mx : Int) : AssumedType :=
  if (mn = 0 ∨ mn = 1) ∧ (mx = 0 ∨ mx = 1) then AssumedType.bool
  else if mn < 0 ∨ mx < 0 then
    if -128 ≤ mn ∧ mx ≤ 127 then AssumedType.i8
    else if -32768 ≤ mn ∧ mx ≤ 32767 then AssumedType.i16
    else AssumedType.i32
  else if 0 < mx then
    if 0 ≤ mn ∧ mx ≤ 255 then AssumedType.u8
    else if 0 ≤ mn ∧ mx ≤ 65535 then AssumedType.u16
    else AssumedType.u32
  else AssumedType.zero

/-- One iteration of the `for bytes in data` loop of `infer`: fold the
signed decoding, then the unsigned decoding, into the single shared
`(min, max)` pair, and clear the float flag on a NaN bit pattern.
(The source also tracks `min_f`/`max_f` float accumulators; they are
write-only locals that never reach the returned tuple, so they are not
modelled.) -/
def inferStep (e : Endian) (acc : Int × Int × Bool) (w : Word) : Int × Int × Bool :=
  let s := decodeSigned e w
  let mn1 := if s < acc.1 then s else acc.1
  let mx1 := if s > acc.2.1 then s else acc.2.1
  let u := decodeUnsigned e w
  let mn2 := if u < mn1 then u else mn1
  let mx2 := if u > mx1 then u else mx1
  let fl := if isNanBits (wordBits e w) then false else acc.2.2
  (mn2, mx2, fl)

/-- The bytes of a word in stream order (the `for byte in bytes` push). -/
def wordBytes : Word → List Nat
| (b0, b1, b2, b3) => [b0, b1, b2, b3]

/-- Result of `infer`: the returned tuple
`(assumed_type, min, max, float, string)`. -/
structure Inference where
  assumed : AssumedType
  min : Int
  max : Int
  floatPlausible : Bool
  stringPlausible : Bool
deriving DecidableEq, Repr

/-- The `infer` function of `analyze.rs` (lines 97-193): fold every word's signed and
unsigned decodings into one shared `(min, max)` pair starting from `(0, 0)`,
record whether any float decoding is NaN, concatenate all bytes and test
UTF-8 validity, then select the assumed type. -/
def infer (data : List Word) (e : Endian) : Inference :=
  let acc := data.foldl (inferStep e) (0, 0, true)
  Inference.mk (selectType acc.1 acc.2.1) acc.1 acc.2.1 acc.2.2
    (validUtf8 (data.flatMap wordBytes))

/-- A log record emitted by the scan loop, with the values actually printed:
`Rec.data start endDisp size inf` is the `info!("DATA ...")` line
(`data_start`, `last - report_offset`, `data_run * 4`, the `infer` tuple);
`Rec.void start endDisp size` is the `debug!("VOID ...")` line
(`zero_start`, `last - report_offset`, `zero_run * 4`). -/
inductive Rec
| data (start endDisp size : Nat) (inf : Inference)
| void (start endDisp size : Nat)
deriving DecidableEq, Repr

/-- The mutable state of the `while` loop of `Analyze::execute`
(lines 51-57), plus the ordered list of records emitted so far.
`last` is the stream position: at loop entry it is the byte offset of the
word about to be processed. -/
structure ScanState where
  dataRun : Nat
  dataStart : Nat
  zeroRun : Nat
  zeroStart : Nat
  data : List Word
  last : Nat
  out : List Rec
deriving DecidableEq, Repr

/-- One iteration of the scan loop (lines 59-91) on the word `w` that
starts at byte offset `s.last`.  Mirrors the source exactly:
on a zero word, `zero_start` is set only when `zero_run == 0`, and the
data-run flush happens only in the `else` branch (`zero_run > 0`);
on a non-zero word, the data run starts (buffer cleared) only when
`data_run == 0`, and the void report / `zero_run` reset happen only in the
`else` branch (`data_run > 0`).  `last - ro` models the `u64` subtraction
`last - report_offset` (exact whenever `ro ≤ s.last`; the Rust subtraction
would overflow otherwise). -/
def step (e : Endian) (ro : Nat) (s : ScanState) (w : Word) : ScanState :=
  if w = zeroWord then
    if s.zeroRun = 0 then
      ScanState.mk s.dataRun s.dataStart (s.zeroRun + 1) s.last s.data
        (s.last + 4) s.out
    else
      let out1 :=
        if 0 < s.dataRun then
          s.out ++ [Rec.data s.dataStart (s.last - ro) (s.dataRun * 4) (infer s.data e)]
        else s.out
      ScanState.mk 0 s.dataStart (s.zeroRun + 1) s.zeroStart s.data
        (s.last + 4) out1
  else
    if s.dataRun = 0 then
      ScanState.mk (s.dataRun + 1) s.last s.zeroRun s.zeroStart [w]
        (s.last + 4) s.out
    else
      let out1 :=
        if 8 ≤ s.zeroRun then
          s.out ++ [Rec.void s.zeroStart (s.last - ro) (s.zeroRun * 4)]
        else s.out
      ScanState.mk (s.dataRun + 1) s.dataStart 0 s.zeroStart (s.data ++ [w])
        (s.last + 4) out1

/-- The loop state right after the seek and the initializers
(lines 48-57): all counters zero, all start markers at `start`. -/
def initState (start : Nat) : ScanState :=
  ScanState.mk 0 start 0 start [] start []

/-- Run the scan loop over a word sequence from a given start offset. -/
def scanWords (e : Endian) (ro : Nat) (start : Nat) (ws : List Word) : ScanState :=
  ws.foldl (step e ro) (initState start)

/-- The 4-byte words obtained by repeated `read_exact` over a byte list;
a trailing fragment of fewer than 4 bytes ends the stream. -/
def wordsOf : List Nat → List Word
| b0 :: b1 :: b2 :: b3 :: rest => (b0, b1, b2, b3) :: wordsOf rest
| _ => []

/-- The final loop state of `Analyze::execute` on buffer `buf` scanned
from byte offset `start`. -/
def scan (e : Endian) (ro : Nat) (buf : List Nat) (start : Nat) : ScanState :=
  scanWords e ro start (wordsOf (buf.drop start))

/-- Error type for the scan; `Cursor::seek` can only fail on a resulting
negative position, which `SeekFrom::Start` can never produce, so no
constructor is ever reached by `analyze`. -/
inductive ScanErr
| seekFailed
deriving DecidableEq, Repr

/-- Behavior of `Cursor::seek(SeekFrom::Start(pos))` from `std`: it sets the
position and always succeeds, even past the end of the underlying buffer. -/
def cursorSeekStart (pos : Nat) : Except ScanErr Nat :=
  Except.ok pos

/-- The body of `Analyze::execute` after the model is loaded: seek to `start`, scan the
word stream, return the emitted records in order (the function returns
`Ok(())` when the loop ends; the records are its observable output). -/
def analyze (e : Endian) (ro : Nat) (buf : List Nat) (start : Nat) :
    Except ScanErr (List Rec) :=
  match cursorSeekStart start with
  | Except.ok p => Except.ok (scanWords e ro p (wordsOf (buf.drop p))).out
  | Except.error err => Except.error err

/-- Length of the longest run of consecutive all-zero words (a "zero gap")
in a word sequence; used to state the void-reporting threshold claims. -/
def maxZeroGap (ws : List Word) : Nat :=
  (ws.foldl
    (fun p w => if w = zeroWord then (p.1 + 1, max p.2 (p.1 + 1)) else (0, p.2))
    ((0 : Nat), (0 : Nat))).2

/-- The type-selection order exactly as the spec words it (section 4.3):
identical to `selectType` except that the `U8`/`U16` windows are stated
purely in terms of `max`. -/
def selectTypeSpec (mn mx : Int) : AssumedType :=
  if (mn = 0 ∨ mn = 1) ∧ (mx = 0 ∨ mx = 1) then AssumedType.bool
  else if mn < 0 ∨ mx < 0 then
    if -128 ≤ mn ∧ mx ≤ 127 then AssumedType.i8
    else if -32768 ≤ mn ∧ mx ≤ 32767 then AssumedType.i16
    else AssumedType.i32
  else if 0 < mx then
    if mx ≤ 255 then AssumedType.u8
    else if mx ≤ 65535 then AssumedType.u16
    else AssumedType.u32
  else AssumedType.zero

/-- The spec's description of the shared accumulator: a single minimum
folded from both the signed and the unsigned decoding of every word,
starting at 0. -/
def combinedMin (data : List Word) (e : Endian) : Int :=
  data.foldl (fun m w => min (min m (decodeSigned e w)) (decodeUnsigned e w)) 0

/-- The spec's description of the shared accumulator: a single maximum
folded from both the signed and the unsigned decoding of every word,
starting at 0. -/
def combinedMax (data : List Word) (e : Endian) : Int :=
  data.foldl (fun m w => max (max m (decodeSigned e w)) (decodeUnsigned e w)) 0

lemma inferStep_eq (e : Endian) (acc : Int × Int × Bool) (w : Word) :
    inferStep e acc w =
      (min (min acc.1 (decodeSigned e w)) (decodeUnsigned e w),
       max (max acc.2.1 (decodeSigned e w)) (decodeUnsigned e w),
       acc.2.2 && !isNanBits (wordBits e w)) := by
  have h1 : ∀ (a b : Int), (if a < b then a else b) = min b a := by
    intro a b; rw [min_def]; split_ifs <;> omega
  have h2 : ∀ (a b : Int), (if a > b then a else b) = max b a := by
    intro a b; rw [max_def]; split_ifs <;> omega
  simp only [inferStep, h1, h2]
  cases hn : isNanBits (wordBits e w) <;> simp [hn]

lemma infer_foldl_min (e : Endian) :
    ∀ (data : List Word) (acc : Int × Int × Bool),
      (data.foldl (inferStep e) acc).1 =
        data.foldl (fun m w => min (min m (decodeSigned e w)) (decodeUnsigned e w)) acc.1 := by
  intro data
  induction data with
  | nil => intro acc; rfl
  | cons w ws ih => intro acc; rw [List.foldl_cons, List.foldl_cons, ih, inferStep_eq]

lemma infer_foldl_max (e : Endian) :
    ∀ (data : List Word) (acc : Int × Int × Bool),
      (data.foldl (inferStep e) acc).2.1 =
        data.foldl (fun m w => max (max m (decodeSigned e w)) (decodeUnsigned e w)) acc.2.1 := by
  intro data
  induction data with
  | nil => intro acc; rfl
  | cons w ws ih => intro acc; rw [List.foldl_cons, List.foldl_cons, ih, inferStep_eq]

lemma infer_foldl_float (e : Endian) :
    ∀ (data : List Word) (acc : Int × Int × Bool),
      (data.foldl (inferStep e) acc).2.2 =
        (acc.2.2 && !(data.any fun w => isNanBits (wordBits e w))) := by
  intro data
  induction data with
  | nil => intro acc; simp
  | cons w ws ih =>
    intro acc
    rw [List.foldl_cons, List.any_cons, ih, inferStep_eq]
    rw [Bool.not_or, ← Bool.and_assoc]

lemma foldl_combined_min_le (e : Endian) :
    ∀ (data : List Word) (mn : Int),
      data.foldl (fun m w => min (min m (decodeSigned e w)) (decodeUnsigned e w)) mn ≤ mn := by
  intro data
  induction data with
  | nil => intro mn; exact le_refl mn
  | cons w ws ih =>
    intro mn
    rw [List.foldl_cons]
    exact le_trans (ih _) (le_trans (min_le_left _ _) (min_le_left _ _))

lemma le_foldl_combined_max (e : Endian) :
    ∀ (data : List Word) (mx : Int),
      mx ≤ data.foldl (fun m w => max (max m (decodeSigned e w)) (decodeUnsigned e w)) mx := by
  intro data
  induction data with
  | nil => intro mx; exact le_refl mx
  | cons w ws ih =>
    intro mx
    rw [List.foldl_cons]
    exact le_trans (le_trans (le_max_left _ _) (le_max_left _ _)) (ih _)

lemma foldl_combined_min_of_nonneg (e : Endian) :
    ∀ (data : List Word),
      (∀ w ∈ data, 0 ≤ decodeSigned e w ∧ 0 ≤ decodeUnsigned e w) →
      data.foldl (fun m w => min (min m (decodeSigned e w)) (decodeUnsigned e w)) 0 = 0 := by
  intro data
  induction data with
  | nil => intro _; rfl
  | cons w ws ih =>
    intro hall
    have hw := hall w (List.mem_cons_self w ws)
    have hz : min (min 0 (decodeSigned e w)) (decodeUnsigned e w) = 0 := by
      rw [min_eq_left hw.1, min_eq_left hw.2]
    rw [List.foldl_cons, hz]
    exact ih (fun x hx => hall x (List.mem_cons_of_mem w hx))

lemma selectType_eq_selectTypeSpec (mn mx : Int) :
    selectType mn mx = selectTypeSpec mn mx := by
  unfold selectType selectTypeSpec
  split_ifs <;> first | rfl | (exfalso; omega)

lemma selectType_ne_zero (mn mx : Int) (h1 : mn ≤ 0) (h2 : 0 ≤ mx) :
    selectType mn mx ≠ AssumedType.zero := by
  unfold selectType
  split_ifs <;> first | decide | (exfalso; omega)

lemma infer_min_le_zero (data : List Word) (e : Endian) : (infer data e).min ≤ 0 := by
  have h : (infer data e).min = (data.foldl (inferStep e) (0, 0, true)).1 := rfl
  rw [h, infer_foldl_min]
  exact foldl_combined_min_le e data 0

lemma zero_le_infer_max (data : List Word) (e : Endian) : 0 ≤ (infer data e).max := by
  have h : (infer data e).max = (data.foldl (inferStep e) (0, 0, true)).2.1 := rfl
  rw [h, infer_foldl_max]
  exact le_foldl_combined_max e data 0

/-- C6: for every data run, `infer` selects the assumed type by the strict
first-match order of the spec over the final combined min/max: `Bool` if
both are in `{0,1}`; else, if either is negative, the narrowest of
`I8`/`I16`/`I32` bounding `[min, max]`; else, if `max` is positive, the
narrowest of `U8`/`U16`/`U32` bounding `max`; else `Zero`.  (The source's
extra `min ≥ u8::MIN` / `min ≥ u16::MIN` guards are vacuous in the
unsigned branch, where `min ≥ 0` already holds.) -/
theorem infer_type_selection (data : List Word) (e : Endian) :
    (infer data e).assumed = selectTypeSpec (infer data e).min (infer data e).max :=
  selectType_eq_selectTypeSpec _ _

/-- C7: the signed and unsigned decodings of every word are folded, after
widening to 64 bits, into one single shared min/max pair starting at
`(0, 0)`; and on the single little-endian word `FF FF FF FF`, `infer`
returns combined `min = -1`, `max = 4294967295`, and assumed type `I32`. -/
theorem infer_shared_minmax :
    (∀ (data : List Word) (e : Endian),
        (infer data e).min = combinedMin data e ∧ (infer data e).max = combinedMax data e) ∧
    ((infer [(255, 255, 255, 255)] Endian.little).min = -1 ∧
     (infer [(255, 255, 255, 255)] Endian.little).max = 4294967295 ∧
     (infer [(255, 255, 255, 255)] Endian.little).assumed = AssumedType.i32) := by
  constructor
  · intro data e
    constructor
    · have h : (infer data e).min = (data.foldl (inferStep e) (0, 0, true)).1 := rfl
      rw [h, infer_foldl_min]; rfl
    · have h : (infer data e).max = (data.foldl (inferStep e) (0, 0, true)).2.1 := rfl
      rw [h, infer_foldl_max]; rfl
  · exact ⟨by decide, by decide, by decide⟩

/-- C8: `infer` returns `float_plausible = false` exactly when at least one
word of the run, decoded as an IEEE-754 single-precision float under the
scan's endianness, is NaN; and once any word of the run is NaN the flag is
false for the whole run, wherever that word sits. -/
theorem infer_float_nan :
    (∀ (data : List Word) (e : Endian),
        ((infer data e).floatPlausible = false ↔
          (data.any fun w => isNanBits (wordBits e w)) = true)) ∧
    (∀ (e : Endian) (pre : List Word) (w : Word) (post : List Word),
        isNanBits (wordBits e w) = true →
        (infer (pre ++ w :: post) e).floatPlausible = false) := by
  have hfold : ∀ (data : List Word) (e : Endian),
      (infer data e).floatPlausible = !(data.any fun w => isNanBits (wordBits e w)) := by
    intro data e
    have h : (infer data e).floatPlausible = (data.foldl (inferStep e) (0, 0, true)).2.2 := rfl
    rw [h, infer_foldl_float]
    simp
  constructor
  · intro data e
    rw [hfold]
    cases h : (data.any fun w => isNanBits (wordBits e w)) <;> simp [h]
  · intro e pre w post hnan
    rw [hfold]
    simp [List.any_append, hnan]

/-- C8 witness: a run containing the NaN bit pattern `FF FF FF FF` followed
by a normal word has `float_plausible = false`. -/
theorem infer_float_nan_witness :
    (infer [(255, 255, 255, 255), (1, 0, 0, 0)] Endian.little).floatPlausible = false :=
  infer_float_nan.2 Endian.little [] (255, 255, 255, 255) [(1, 0, 0, 0)] (by decide)

/-- C9: the `Zero` fallback branch of the type selection is unreachable:
`infer` never returns `AssumedType::Zero`, because the accumulators start
at `(0, 0)` so `min ≤ 0 ≤ max`, and a state with `min = max = 0` is
already captured by the `Bool` rule. -/
theorem infer_never_zero (data : List Word) (e : Endian) :
    (infer data e).assumed ≠ AssumedType.zero :=
  selectType_ne_zero (infer data e).min (infer data e).max
    (infer_min_le_zero data e) (zero_le_infer_max data e)

/-- C10: because the min and max accumulators of `infer` start at 0, every
run satisfies `min ≤ 0` and `0 ≤ max`; in particular, for a run whose
signed and unsigned decodings are all strictly positive, the reported
minimum is 0 rather than the smallest decoded value. -/
theorem infer_minmax_zero_anchored :
    ∀ (data : List Word) (e : Endian),
      ((infer data e).min ≤ 0 ∧ 0 ≤ (infer data e).max) ∧
      ((∀ w ∈ data, 0 < decodeSigned e w ∧ 0 < decodeUnsigned e w) →
        (infer data e).min = 0) := by
  intro data e
  refine ⟨⟨infer_min_le_zero data e, zero_le_infer_max data e⟩, fun hall => ?_⟩
  have h : (infer data e).min = (data.foldl (inferStep e) (0, 0, true)).1 := rfl
  rw [h, infer_foldl_min]
  exact foldl_combined_min_of_nonneg e data
    (fun w hw => ⟨le_of_lt (hall w hw).1, le_of_lt (hall w hw).2⟩)

/-- C10 witness: the one-word run `02 00 00 00` (little-endian) has both
decodings strictly positive, and its reported minimum is 0. -/
theorem infer_minmax_zero_anchored_witness :
    (((infer [(2, 0, 0, 0)] Endian.little).min ≤ 0 ∧
      0 ≤ (infer [(2, 0, 0, 0)] Endian.little).max) ∧
     (infer [(2, 0, 0, 0)] Endian.little).min = 0) := by
  have h := infer_minmax_zero_anchored [(2, 0, 0, 0)] Endian.little
  exact ⟨h.1, h.2 (by decide)⟩

lemma scanWords_all_nonzero_aux (e : Endian) (ro : Nat) :
    ∀ (ws : List Word) (s : ScanState),
      (∀ w ∈ ws, w ≠ zeroWord) → s.zeroRun < 8 →
      (ws.foldl (step e ro) s).out = s.out ∧
      (ws.foldl (step e ro) s).dataRun = s.dataRun + ws.length := by
  intro ws
  induction ws with
  | nil => intro s _ _; exact ⟨rfl, rfl⟩
  | cons w ws ih =>
    intro s hall hz
    have hw : w ≠ zeroWord := hall w (List.mem_cons_self w ws)
    have hall2 : ∀ x ∈ ws, x ≠ zeroWord := fun x hx => hall x (List.mem_cons_of_mem w hx)
    rw [List.foldl_cons]
    by_cases hd : s.dataRun = 0
    · have hstep : step e ro s w =
          ScanState.mk (s.dataRun + 1) s.last s.zeroRun s.zeroStart [w] (s.last + 4) s.out := by
        simp [step, hw, hd]
      rw [hstep]
      have h2 := ih (ScanState.mk (s.dataRun + 1) s.last s.zeroRun s.zeroStart [w]
        (s.last + 4) s.out) hall2 hz
      have hr : (ScanState.mk (s.dataRun + 1) s.last s.zeroRun s.zeroStart [w]
        (s.last + 4) s.out).dataRun = s.dataRun + 1 := rfl
      exact ⟨h2.1, by rw [h2.2, hr, List.length_cons]; omega⟩
    · have hnv : ¬ 8 ≤ s.zeroRun := by omega
      have hstep : step e ro s w =
          ScanState.mk (s.dataRun + 1) s.dataStart 0 s.zeroStart (s.data ++ [w])
            (s.last + 4) s.out := by
        simp [step, hw, hd, hnv]
      rw [hstep]
      have hz2 : (ScanState.mk (s.dataRun + 1) s.dataStart 0 s.zeroStart (s.data ++ [w])
          (s.last + 4) s.out).zeroRun < 8 := by
        show (0 : Nat) < 8
        omega
      have h2 := ih (ScanState.mk (s.dataRun + 1) s.dataStart 0 s.zeroStart (s.data ++ [w])
        (s.last + 4) s.out) hall2 hz2
      have hr : (ScanState.mk (s.dataRun + 1) s.dataStart 0 s.zeroStart (s.data ++ [w])
        (s.last + 4) s.out).dataRun = s.dataRun + 1 := rfl
      exact ⟨h2.1, by rw [h2.2, hr, List.length_cons]; omega⟩

/-- C1 counterexample: on the buffer holding the single non-zero word
`01 00 00 00` scanned from offset 0, the stream is exhausted with
`data_run_length = 1 > 0`, yet the scan emits no record at all: the final
data run is silently dropped, never handed to `infer`. -/
theorem scan_final_data_run_dropped_cx :
    (scan Endian.little 0 [1, 0, 0, 0] 0).out = [] ∧
    0 < (scan Endian.little 0 [1, 0, 0, 0] 0).dataRun := by decide

/-- C1 amended: at stream exhaustion nothing is flushed — the loop simply
ends.  For any word stream with no zero word at all, the scan emits no
record although the whole stream is one in-progress data run
(`data_run_length = length > 0` at end of stream). -/
theorem scan_no_flush_at_exhaustion (e : Endian) (ro start : Nat) (ws : List Word)
    (h : ∀ w ∈ ws, w ≠ zeroWord) :
    (scanWords e ro start ws).out = [] ∧ (scanWords e ro start ws).dataRun = ws.length := by
  unfold scanWords
  have hz : (initState start).zeroRun < 8 := by
    show (0 : Nat) < 8
    omega
  have h2 := scanWords_all_nonzero_aux e ro ws (initState start) h hz
  refine ⟨h2.1, ?_⟩
  have h0 : (initState start).dataRun = 0 := rfl
  rw [h2.2, h0]
  omega

/-- C1 amended, witness: the one-word stream `01 00 00 00` is all non-zero;
the scan of it emits nothing and ends with `data_run_length = 1`. -/
theorem scan_no_flush_at_exhaustion_witness :
    (scanWords Endian.little 0 0 [(1, 0, 0, 0)]).out = [] ∧
    (scanWords Endian.little 0 0 [(1, 0, 0, 0)]).dataRun = 1 := by
  have h := scan_no_flush_at_exhaustion Endian.little 0 0 [(1, 0, 0, 0)] (by decide)
  exact ⟨h.1, h.2⟩

/-- C2 counterexample: on words `[01 00 00 00, 00 00 00 00]`, the zero word
at position 4 is read while `data_run_length = 1 > 0`, but no `Data` run is
flushed there or ever (the whole scan emits nothing): the flush branch also
requires `zero_run > 0`, which fails at the first zero word after a data
run. -/
theorem scan_flush_one_word_late_cx :
    (scanWords Endian.little 0 0 [(1, 0, 0, 0)]).dataRun = 1 ∧
    (scan Endian.little 0 [1, 0, 0, 0, 0, 0, 0, 0] 0).out = [] := by decide

/-- C2 amended: a zero word flushes an active data run only when it is the
second-or-later consecutive zero (`zero_run > 0` at that word); at the
first zero word after a data run nothing is emitted and `data_run` is left
untouched.  When the flush does happen, the emitted `Data` record carries
`data_start`, displayed end `p - report_offset` where `p` is the position
of the flushing zero word (one word past the zero that ended the run), and
size `data_run * 4`, and `data_run` is reset to zero. -/
theorem step_zero_flush_rule (e : Endian) (ro : Nat) (s : ScanState) :
    (s.zeroRun = 0 →
      (step e ro s zeroWord).out = s.out ∧ (step e ro s zeroWord).dataRun = s.dataRun) ∧
    (0 < s.zeroRun → 0 < s.dataRun →
      (step e ro s zeroWord).out =
        s.out ++ [Rec.data s.dataStart (s.last - ro) (s.dataRun * 4) (infer s.data e)] ∧
      (step e ro s zeroWord).dataRun = 0) := by
  constructor
  · intro h
    simp [step, h]
  · intro h1 h2
    have h0 : ¬ s.zeroRun = 0 := by omega
    simp [step, h0, h2]

/-- C2 amended, witness: a zero word hitting the state after one data word
(`zero_run = 0`) emits nothing; a zero word hitting the state after a data
word and one zero (`zero_run = 1`, `data_run = 1`) emits the `Data` record
ending at the flushing word's position and resets `data_run`. -/
theorem step_zero_flush_rule_witness :
    (step Endian.little 0 (ScanState.mk 1 0 0 0 [(1, 0, 0, 0)] 4 []) zeroWord).out = [] ∧
    (step Endian.little 0 (ScanState.mk 1 0 1 4 [(1, 0, 0, 0)] 8 []) zeroWord).out =
      [Rec.data 0 8 4 (infer [(1, 0, 0, 0)] Endian.little)] ∧
    (step Endian.little 0 (ScanState.mk 1 0 1 4 [(1, 0, 0, 0)] 8 []) zeroWord).dataRun = 0 := by
  have ha := (step_zero_flush_rule Endian.little 0
    (ScanState.mk 1 0 0 0 [(1, 0, 0, 0)] 4 [])).1 rfl
  have hb := (step_zero_flush_rule Endian.little 0
    (ScanState.mk 1 0 1 4 [(1, 0, 0, 0)] 8 [])).2 (by decide) (by decide)
  exact ⟨ha.1, hb.1, hb.2⟩

/-- C3 counterexample: scanning the words `[zero, one, zero]`, the claim
predicts the zero run restarts at position 8 with length 1 (reset at the
intervening data word, start refreshed at the new zero).  The code ends
with `zero_run = 2` and `zero_start = 0`: the one-word data run neither
reset the length nor moved the start. -/
theorem scan_zero_run_carry_cx :
    (scan Endian.little 0 [0, 0, 0, 0, 1, 0, 0, 0, 0, 0, 0, 0] 0).zeroRun = 2 ∧
    (scan Endian.little 0 [0, 0, 0, 0, 1, 0, 0, 0, 0, 0, 0, 0] 0).zeroStart = 0 := by decide

/-- C3 amended: `zero_start` is refreshed only when `zero_run = 0`, and
`zero_run` is reset only at the second-or-later consecutive non-zero word
(`data_run > 0`); the first non-zero word after zeros leaves both zero-run
fields untouched, so the zero-run length and start do carry over across a
data run of exactly one word, and a zero word arriving with `zero_run > 0`
keeps the old start. -/
theorem step_zero_run_carry (e : Endian) (ro : Nat) (s : ScanState) (w : Word) :
    (w ≠ zeroWord → s.dataRun = 0 →
      (step e ro s w).zeroRun = s.zeroRun ∧ (step e ro s w).zeroStart = s.zeroStart) ∧
    (w ≠ zeroWord → 0 < s.dataRun → (step e ro s w).zeroRun = 0) ∧
    (0 < s.zeroRun →
      (step e ro s zeroWord).zeroStart = s.zeroStart ∧
      (step e ro s zeroWord).zeroRun = s.zeroRun + 1) := by
  refine ⟨fun hw hd => ?_, fun hw hd => ?_, fun hz => ?_⟩
  · simp [step, hw, hd]
  · have hd0 : ¬ s.dataRun = 0 := by omega
    simp [step, hw, hd0]
  · have hz0 : ¬ s.zeroRun = 0 := by omega
    simp [step, hz0]

/-- C3 amended, witness: with `zero_run = 3` pending, a first data word
leaves `(zero_run, zero_start)` at `(3, 0)`; a second data word resets
`zero_run` to 0; and a zero word arriving on the pending run keeps
`zero_start = 0` and extends the length to 4. -/
theorem step_zero_run_carry_witness :
    ((step Endian.little 0 (ScanState.mk 0 0 3 0 [] 12 []) (1, 0, 0, 0)).zeroRun = 3 ∧
     (step Endian.little 0 (ScanState.mk 0 0 3 0 [] 12 []) (1, 0, 0, 0)).zeroStart = 0) ∧
    (step Endian.little 0 (ScanState.mk 1 12 3 0 [(1, 0, 0, 0)] 16 []) (2, 0, 0, 0)).zeroRun = 0 ∧
    ((step Endian.little 0 (ScanState.mk 0 0 3 0 [] 12 []) zeroWord).zeroStart = 0 ∧
     (step Endian.little 0 (ScanState.mk 0 0 3 0 [] 12 []) zeroWord).zeroRun = 4) := by
  have h1 := (step_zero_run_carry Endian.little 0
    (ScanState.mk 0 0 3 0 [] 12 []) (1, 0, 0, 0)).1 (by decide) rfl
  have h2 := (step_zero_run_carry Endian.little 0
    (ScanState.mk 1 12 3 0 [(1, 0, 0, 0)] 16 []) (2, 0, 0, 0)).2.1 (by decide) (by decide)
  have h3 := (step_zero_run_carry Endian.little 0
    (ScanState.mk 0 0 3 0 [] 12 []) (1, 0, 0, 0)).2.2 (by decide)
  exact ⟨h1, h2, h3⟩

/-- C4 counterexample: requesting start offset 4 on the empty buffer (any
offset exceeds its length) does not fail: the scan terminates normally with
an empty result, because `Cursor::seek(SeekFrom::Start)` always succeeds
and the first `read_exact` merely ends the loop. -/
theorem analyze_seek_past_end_cx :
    analyze Endian.little 0 [] 4 = Except.ok [] := rfl

/-- C4 amended: a start offset at or beyond the buffer length is not an
error: the seek succeeds, no word is ever read, and the scan terminates
normally having emitted no run. -/
theorem analyze_past_end_ok (e : Endian) (ro : Nat) (buf : List Nat) (start : Nat)
    (h : buf.length ≤ start) :
    analyze e ro buf start = Except.ok [] := by
  have hd : buf.drop start = [] := List.drop_eq_nil_of_le h
  simp [analyze, cursorSeekStart, hd, wordsOf, scanWords, initState]

/-- C4 amended, witness: the 4-byte buffer scanned from offset 7 returns
normally with no records. -/
theorem analyze_past_end_ok_witness :
    analyze Endian.little 0 [0, 0, 0, 0] 7 = Except.ok [] :=
  analyze_past_end_ok Endian.little 0 [0, 0, 0, 0] 7 (by decide)

/-- True exactly on `VOID` records. -/
def isVoidRec : Rec → Bool
| Rec.void _ _ _ => true
| Rec.data _ _ _ _ => false

lemma step_void_size_bound (e : Endian) (ro : Nat) (s : ScanState) (w : Word)
    (hinv : ∀ a b c, Rec.void a b c ∈ s.out → 32 ≤ c) :
    ∀ a b c, Rec.void a b c ∈ (step e ro s w).out → 32 ≤ c := by
  intro a b c hmem
  by_cases h1 : w = zeroWord
  · by_cases h2 : s.zeroRun = 0
    · simp [step, h1, h2] at hmem
      exact hinv a b c hmem
    · by_cases h3 : 0 < s.dataRun
      · simp [step, h1, h2, h3] at hmem
        exact hinv a b c hmem
      · simp [step, h1, h2, h3] at hmem
        exact hinv a b c hmem
  · by_cases h2 : s.dataRun = 0
    · simp [step, h1, h2] at hmem
      exact hinv a b c hmem
    · by_cases h3 : 8 ≤ s.zeroRun
      · simp [step, h1, h2, h3] at hmem
        rcases hmem with hmem | hmem
        · exact hinv a b c hmem
        · omega
      · simp [step, h1, h2, h3] at hmem
        exact hinv a b c hmem

lemma scanWords_void_size_bound (e : Endian) (ro : Nat) :
    ∀ (ws : List Word) (s : ScanState),
      (∀ a b c, Rec.void a b c ∈ s.out → 32 ≤ c) →
      ∀ a b c, Rec.void a b c ∈ (ws.foldl (step e ro) s).out → 32 ≤ c := by
  intro ws
  induction ws with
  | nil => intro s hinv; exact hinv
  | cons w ws ih =>
    intro s hinv
    rw [List.foldl_cons]
    exact ih (step e ro s w) (step_void_size_bound e ro s w hinv)

/-- C5 counterexample: on the word stream `0×7, d, 0, d, d` (bytes below,
little-endian), the longest contiguous zero gap is 7 words — strictly
below the threshold — yet the scan emits a `VOID` record: the one-word
data run does not reset `zero_run`, so the counter reaches 8 across two
short gaps. -/
theorem scan_void_from_short_gaps_cx :
    ((scan Endian.little 0
        [0, 0, 0, 0, 0, 0, 0, 0, 0, 0, 0, 0, 0, 0, 0, 0, 0, 0, 0, 0, 0, 0, 0, 0,
         0, 0, 0, 0, 1, 0, 0, 0, 0, 0, 0, 0, 1, 0, 0, 0, 1, 0, 0, 0] 0).out.any
        isVoidRec) = true ∧
    maxZeroGap (wordsOf
        [0, 0, 0, 0, 0, 0, 0, 0, 0, 0, 0, 0, 0, 0, 0, 0, 0, 0, 0, 0, 0, 0, 0, 0,
         0, 0, 0, 0, 1, 0, 0, 0, 0, 0, 0, 0, 1, 0, 0, 0, 1, 0, 0, 0]) = 7 := by decide

/-- C5 amended: every emitted `VOID` record reports at least 8 words
(size at least 32 bytes), and a `VOID` record is emitted exactly at a
second-or-later consecutive non-zero word (`data_run > 0`) whose
accumulated `zero_run` is at least 8, covering `zero_start` to the current
position minus the report offset.  The accumulated `zero_run` need not be
one contiguous gap (one-word data runs do not reset it), and a pending
zero run at end of stream is never reported. -/
theorem void_record_threshold :
    (∀ (e : Endian) (ro start : Nat) (ws : List Word) (a b c : Nat),
        Rec.void a b c ∈ (scanWords e ro start ws).out → 32 ≤ c) ∧
    (∀ (e : Endian) (ro : Nat) (s : ScanState) (w : Word),
        w ≠ zeroWord → 0 < s.dataRun → 8 ≤ s.zeroRun →
        (step e ro s w).out =
          s.out ++ [Rec.void s.zeroStart (s.last - ro) (s.zeroRun * 4)]) := by
  constructor
  · intro e ro start ws a b c hmem
    have hinv : ∀ a b c, Rec.void a b c ∈ (initState start).out → 32 ≤ c := by
      intro a b c h
      simp [initState] at h
    exact scanWords_void_size_bound e ro ws (initState start) hinv a b c hmem
  · intro e ro s w hw hd h8
    have hd0 : ¬ s.dataRun = 0 := by omega
    simp [step, hw, hd0, h8]

/-- C5 amended, witness: the `VOID` record produced after eight zeros and
two data words reports 32 bytes (at least 8 words), and a non-zero word
hitting a state with `data_run = 1` and `zero_run = 8` emits exactly that
record. -/
theorem void_record_threshold_witness :
    (32 : Nat) ≤ 32 ∧
    (step Endian.little 0 (ScanState.mk 1 36 8 0 [(1, 0, 0, 0)] 40 []) (1, 0, 0, 0)).out =
      [Rec.void 0 40 32] := by
  constructor
  · exact void_record_threshold.1 Endian.little 0 0
      [zeroWord, zeroWord, zeroWord, zeroWord, zeroWord, zeroWord, zeroWord, zeroWord,
       (1, 0, 0, 0), (2, 0, 0, 0)] 0 36 32 (by decide)
  · have h := void_record_threshold.2 Endian.little 0
      (ScanState.mk 1 36 8 0 [(1, 0, 0, 0)] 40 []) (1, 0, 0, 0)
      (by decide) (by decide) (by decide)
    exact h

end Orphist
